import Mathlib

/-
Verification of the grimora Hall chat surface (internal/tui/hall.go and
internal/tui/input.go, current revision) against its specification.

Modelling conventions:
* Go strings are UTF-8 and all the logic verified here measures and edits
  them per rune; a Go string is therefore modelled as its list of runes
  (`GoStr := List Char`).  Byte-level counts (the `len(key) == 1` test in
  the autocomplete branches) are modelled with `Char.utf8Size`.
* `time.Time` values are modelled as natural numbers: the zero value is 0,
  `a.Before(b)` is `a < b`.  Real API messages carry positive timestamps.
* `map[string]bool` sets are modelled as `Finset GoStr`; Go map iteration
  feeding `sort.Strings` is modelled as `dedup` followed by a sort, which
  yields the same (sorted, duplicate-free) list.
* `sort.Slice` with `less = CreatedAt.Before` produces some permutation of
  the slice that is non-decreasing in `CreatedAt`; it is modelled by
  `List.insertionSort` with the non-strict comparison, which has exactly
  that contract.
* bubbletea `tea.Cmd` values are opaque thunks; they are modelled by the
  inductive `Cmd` recording which request the thunk would issue.
* `lipgloss.Render` only adds colour codes around its argument; a rendered
  fragment is modelled as the pair of a style tag and the text content.
  `lipgloss.Width` is the visual cell width of plain text, modelled as one
  cell per rune (`runeWidth`).
* JSON metadata decoding (`json.Unmarshal`, best effort) is external; a
  `RoomMessage` carries the already-decoded key/value list.
-/

set_option maxRecDepth 8000
set_option maxHeartbeats 1000000

namespace Grimora

/-- Rune sequence of a Go string: all Hall text logic is rune-based. -/
abbrev GoStr : Type := List Char

/-- Runes of a Lean string literal, used to write Go string literals. -/
def str (s : String) : GoStr := s.data

/-- Lowering of a Go string, modelling `strings.ToLower` (exact on ASCII,
which is all the autocomplete pools contain). -/
def strToLower (s : GoStr) : GoStr := s.map Char.toLower

/-- Whitespace test modelling `unicode.IsSpace` on the ASCII range. -/
def isSpaceGo (c : Char) : Bool :=
  c = ' ' ∨ c = '\t' ∨ c = '\n' ∨ c = '\r' ∨ c = '\x0b' ∨ c = '\x0c'

/-- Model of `strings.TrimSpace`: drop leading and trailing whitespace. -/
def trimSpaceG (s : GoStr) : GoStr :=
  ((s.dropWhile isSpaceGo).reverse.dropWhile isSpaceGo).reverse

/-- Model of `strings.HasSuffix`: byte equality of the tail, which on runes
is equality of the last `len(suffix)` runes. -/
def hasSuffixG (s suff : GoStr) : Bool :=
  decide (suff.length ≤ s.length ∧ s.drop (s.length - suff.length) = suff)

/-- Model of `strings.TrimSuffix`. -/
def trimSuffixG (s suff : GoStr) : GoStr :=
  if hasSuffixG s suff then s.take (s.length - suff.length) else s

/-- Model of `strings.Fields`: split on whitespace runs, dropping empties. -/
def goFields (s : GoStr) : List GoStr :=
  ((s.map (fun c => if isSpaceGo c then ' ' else c)).splitOn ' ').filter
    (fun f => f ≠ [])

/-- Contiguous-substring test modelling `strings.Contains`. -/
def containsSub (hay needle : GoStr) : Bool :=
  (List.range (hay.length + 1)).any (fun n => needle.isPrefixOf (hay.drop n))

/-- UTF-8 byte length of a Go string (`len(s)` on a Go string). -/
def utf8Len (s : GoStr) : Nat := (s.map Char.utf8Size).sum

/- ===== input.go ===== -/

/-- pageSize is the default number of items fetched per API call. -/
def pageSize : Nat := 50

/-- maxInputLen is the maximum number of runes allowed in chat and form
inputs. -/
def maxInputLen : Nat := 2000

/-- namedKeys is the set of Bubbletea key names that are multi-character
strings composed of printable ASCII.  These must not be treated as paste. -/
def namedKeys : List GoStr :=
  [str "enter", str "return", str "tab", str "esc", str "escape",
   str "space", str "up", str "down", str "left", str "right",
   str "home", str "end", str "pgup", str "pgdown",
   str "delete", str "insert",
   str "f1", str "f2", str "f3", str "f4", str "f5",
   str "f6", str "f7", str "f8", str "f9", str "f10",
   str "f11", str "f12", str "f13", str "f14", str "f15",
   str "f16", str "f17", str "f18", str "f19", str "f20"]

/-- isNamedKey reports whether a key name is a named/control key. -/
def isNamedKey (key : GoStr) : Bool :=
  namedKeys.contains key || (str "ctrl+").isPrefixOf key
    || (str "alt+").isPrefixOf key || (str "shift+").isPrefixOf key

/-- editRune processes a keystroke for inline text editing.  Handles
backspace (rune-aware), single printable characters, and multi-rune paste
strings.  Returns the text unchanged for non-printable keys.  Input is
clamped to maxInputLen runes. -/
def editRune (text key : GoStr) : GoStr :=
  if key = str "backspace" then
    if text.length > 0 then text.dropLast else text
  else
    let keyLen := key.length
    if keyLen < 1 ∨ isNamedKey key then text
    else if maxInputLen ≤ text.length then text
    else if 1 < keyLen ∧ maxInputLen - text.length < keyLen then
      text ++ key.take (maxInputLen - text.length)
    else text ++ key

/- ===== hall.go data model ===== -/

/-- reactionCount is an emoji + count for display. -/
structure reactionCount where
  Emoji : GoStr
  Count : Nat
deriving Repr, DecidableEq

/-- RoomMessage is the wire shape of a fetched room message (pkg/domain).
`id` is the string form of the message UUID; `metadata` is the result of
the best-effort JSON decode of the metadata payload. -/
structure RoomMessage where
  id : GoStr
  senderLogin : GoStr
  senderGuild : GoStr
  body : GoStr
  kind : GoStr
  metadata : List (GoStr × GoStr)
  createdAt : Nat
deriving Repr, DecidableEq

/-- chatMessage is a rendered message ready for display. -/
structure chatMessage where
  ID : GoStr
  SenderLogin : GoStr
  SenderGuild : GoStr
  Body : GoStr
  Kind : GoStr
  Metadata : List (GoStr × GoStr)
  CreatedAt : Nat
  IsSystem : Bool
  IsGrimoire : Bool
  IsSelf : Bool
  Reactions : List reactionCount
  animFrame : Nat
deriving Repr, DecidableEq

/-- WorkshopProject is a user project (pkg/domain); only `name` is read by
the Hall autocomplete logic. -/
structure WorkshopProject where
  id : GoStr
  name : GoStr
  insight : GoStr
deriving Repr, DecidableEq, Inhabited

/-- Cmd mirrors the bubbletea commands the Hall update loop can emit. -/
inductive Cmd where
  | none
  | tick
  | loadMessages
  | loadProjects
  | loadReactions (ids : List GoStr)
  | sendRoomMessage (body : GoStr)
  | batch (cmds : List Cmd)
deriving Repr

/-- hallModel is the Hall (group chat) tab model (the fields read or
written by the verified logic; `client` is kept as a presence flag since
the code only compares it against nil). -/
structure hallModel where
  clientPresent : Bool
  messages : List chatMessage
  input : GoStr
  status : GoStr
  err : GoStr
  connected : Bool
  inputFocused : Bool
  width : Nat
  height : Nat
  scroll : Nat
  myLogin : GoStr
  seenIDs : Finset GoStr
  presenceCount : Nat
  presenceLogins : Option (List GoStr)
  animFrame : Nat
  allLogins : List GoStr
  mentionActive : Bool
  mentionQuery : GoStr
  mentionMatches : List GoStr
  mentionCursor : Nat
  projectActive : Bool
  projectQuery : GoStr
  projectMatches : List WorkshopProject
  projectCursor : Nat
  myProjects : List WorkshopProject

/-- newHallModel mirrors the constructor: empty seen-ID set, focused. -/
def newHallModel (clientPresent : Bool) : hallModel where
  clientPresent := clientPresent
  messages := []
  input := []
  status := []
  err := []
  connected := false
  inputFocused := true
  width := 0
  height := 0
  scroll := 0
  myLogin := []
  seenIDs := ∅
  presenceCount := 0
  presenceLogins := Option.none
  animFrame := 0
  allLogins := []
  mentionActive := false
  mentionQuery := []
  mentionMatches := []
  mentionCursor := 0
  projectActive := false
  projectQuery := []
  projectMatches := []
  projectCursor := 0
  myProjects := []

/- ===== autocomplete candidate pools ===== -/

/-- Lexicographic rune order on Go strings; UTF-8 byte order coincides
with code-point order, so this is `sort.Strings` order. -/
def lexLe : GoStr → GoStr → Bool
  | [], _ => true
  | _ :: _, [] => false
  | a :: as, b :: bs => if a < b then true else if b < a then false else lexLe as bs

/-- knownLogins collects every login visible to the model (pre-fetched
logins, presence, message senders), excluding the empty login and the
local identity, as a sorted duplicate-free list (Go: a `map[string]bool`
whose keys are then passed through `sort.Strings`). -/
def knownLogins (m : hallModel) : List GoStr :=
  let pool :=
    m.allLogins.filter (fun l => decide (l ≠ [] ∧ l ≠ m.myLogin))
      ++ (m.presenceLogins.getD []).filter (fun l => decide (l ≠ [] ∧ l ≠ m.myLogin))
      ++ (m.messages.filter
            (fun c => decide (c.SenderLogin ≠ [] ∧ c.SenderLogin ≠ m.myLogin ∧ c.IsSystem = false))).map
          (fun c => c.SenderLogin)
  List.insertionSort (fun a b => lexLe a b = true) pool.dedup

/-- filterLogins returns logins matching the query as a case-insensitive
prefix; an empty query returns all known logins. -/
def filterLogins (m : hallModel) (query : GoStr) : List GoStr :=
  let all := knownLogins m
  if query = [] then all
  else all.filter (fun l => (strToLower query).isPrefixOf (strToLower l))

/-- filterProjects returns the user's projects whose lowered name contains
the lowered query as a substring; an empty query returns all of them. -/
def filterProjects (m : hallModel) (query : GoStr) : List WorkshopProject :=
  let q := strToLower query
  m.myProjects.filter (fun p => decide (q = []) || containsSub (strToLower p.name) q)

/- ===== message merge (hallMessagesMsg handling) ===== -/

/-- convertMsg normalizes one fetched message: default the kind to
"message", mark "is mine" against the local identity, seed the entrance
animation for rich kinds. -/
def convertMsg (myLogin : GoStr) (raw : RoomMessage) : chatMessage where
  ID := raw.id
  SenderLogin := raw.senderLogin
  SenderGuild := raw.senderGuild
  Body := raw.body
  Kind := if raw.kind = [] then str "message" else raw.kind
  Metadata := raw.metadata
  CreatedAt := raw.createdAt
  IsSystem := false
  IsGrimoire := false
  IsSelf := decide (raw.senderLogin = myLogin)
  Reactions := []
  animFrame :=
    if (if raw.kind = [] then str "message" else raw.kind) ≠ str "message" then 1 else 0

/-- insertOne performs one step of the merge loop: skip a message whose ID
is already in the seen set, otherwise append its normalized form and mark
the ID seen. -/
def insertOne (myLogin : GoStr) (acc : List chatMessage × Finset GoStr)
    (raw : RoomMessage) : List chatMessage × Finset GoStr :=
  if raw.id ∈ acc.2 then acc
  else (acc.1 ++ [convertMsg myLogin raw], insert raw.id acc.2)

/-- insertBatch folds the merge loop over a fetched batch. -/
def insertBatch (myLogin : GoStr) (acc : List chatMessage × Finset GoStr)
    (batch : List RoomMessage) : List chatMessage × Finset GoStr :=
  batch.foldl (insertOne myLogin) acc

/-- mergeResult is the window and seen set right after the merge loop of a
successful fetch, before the sort and the retention trim. -/
def mergeResult (m : hallModel) (batch : List RoomMessage) :
    List chatMessage × Finset GoStr :=
  insertBatch m.myLogin (m.messages, m.seenIDs) batch

/-- timeLe is the chronological comparison on entries. -/
def timeLe (a b : chatMessage) : Prop := a.CreatedAt ≤ b.CreatedAt

instance : DecidableRel timeLe := fun a b => Nat.decLe a.CreatedAt b.CreatedAt

instance : IsTotal chatMessage timeLe := ⟨fun a b => Nat.le_total a.CreatedAt b.CreatedAt⟩

instance : IsTrans chatMessage timeLe := ⟨fun _ _ _ h₁ h₂ => Nat.le_trans h₁ h₂⟩

/-- sortByTime models the `sort.Slice` call: some permutation of the window
that is non-decreasing in `CreatedAt` (oldest first, newest at bottom). -/
def sortByTime (l : List chatMessage) : List chatMessage :=
  List.insertionSort timeLe l

/-- trimWindow keeps the slice bounded to the most recent 200 messages and,
when it trims, rebuilds the seen-ID set to match the surviving entries. -/
def trimWindow (msgs : List chatMessage) (seen : Finset GoStr) :
    List chatMessage × Finset GoStr :=
  if 200 < msgs.length then
    (msgs.drop (msgs.length - 200),
     ((msgs.drop (msgs.length - 200)).map (fun c => c.ID)).toFinset)
  else (msgs, seen)

/-- HallMessagesMsg carries a batch of room messages from the API. -/
structure HallMessagesMsg where
  messages : List RoomMessage
  err : Option GoStr

/-- handleHallMessages is the `case hallMessagesMsg` branch of
`hallModel.Update`: on error keep state and reschedule; on success merge
with dedup, sort chronologically, trim to 200, and request reactions. -/
def handleHallMessages (m : hallModel) (msg : HallMessagesMsg) : hallModel × Cmd :=
  match msg.err with
  | some e => ({ m with err := e }, Cmd.tick)
  | Option.none =>
    let merged := mergeResult m msg.messages
    let sorted := sortByTime merged.1
    let trimmed := trimWindow sorted merged.2
    let m2 := { m with
      err := [], connected := true,
      messages := trimmed.1, seenIDs := trimmed.2 }
    let cmds :=
      if m2.clientPresent ∧ 0 < m2.messages.length then
        [Cmd.tick, Cmd.loadReactions (m2.messages.map (fun c => c.ID))]
      else [Cmd.tick]
    (m2, Cmd.batch cmds)

/- ===== reactions (hallReactionsMsg handling) ===== -/

/-- HallReactionsMsg carries batch reaction counts from the API; the map is
modelled as an association list with the map's (unique) keys. -/
structure HallReactionsMsg where
  reactions : Option (List (GoStr × List reactionCount))
  err : Option GoStr

/-- applyReactions is the per-entry reaction merge: an entry whose ID has
a fetched result takes that result, any other entry keeps its prior
reaction state. -/
def applyReactions (rmap : List (GoStr × List reactionCount)) (c : chatMessage) :
    chatMessage :=
  match rmap.lookup c.ID with
  | some rcs => { c with Reactions := rcs }
  | Option.none => c

/-- handleHallReactions is the `case hallReactionsMsg` branch: merge the
fetched counts onto matching entries by ID; entries without a result keep
their prior reaction state. -/
def handleHallReactions (m : hallModel) (msg : HallReactionsMsg) : hallModel :=
  match msg.err, msg.reactions with
  | Option.none, some rmap =>
    { m with messages := m.messages.map (applyReactions rmap) }
  | _, _ => m

/- ===== presence (hallPresenceMsg handling) ===== -/

/-- HallPresenceMsg carries room presence data from the API; `logins`
keeps the Go slice's nil/non-nil distinction. -/
structure HallPresenceMsg where
  count : Nat
  logins : Option (List GoStr)
  err : Option GoStr

/-- mkPresenceSystemMsg is the synthetic system entry the presence diff
appends: only IsSystem and Body are set, every other field is the Go zero
value (empty ID, zero CreatedAt). -/
def mkPresenceSystemMsg (body : GoStr) : chatMessage where
  ID := []
  SenderLogin := []
  SenderGuild := []
  Body := body
  Kind := []
  Metadata := []
  CreatedAt := 0
  IsSystem := true
  IsGrimoire := false
  IsSelf := false
  Reactions := []
  animFrame := 0

/-- handleHallPresence is the `case hallPresenceMsg` branch: diff presence
against the previous snapshot to append join/leave system messages
(skipped on the first load, when the previous snapshot is nil), then store
the new snapshot. -/
def handleHallPresence (m : hallModel) (msg : HallPresenceMsg) : hallModel :=
  match msg.err with
  | some _ => m
  | Option.none =>
    let cur := msg.logins.getD []
    let m1 :=
      match m.presenceLogins with
      | Option.none => m
      | some prev =>
        let joins := (cur.filter
            (fun l => decide (¬ l ∈ prev ∧ l ≠ m.myLogin))).map
          (fun l => mkPresenceSystemMsg (l ++ str " joined"))
        let leaves := (prev.filter
            (fun l => decide (¬ l ∈ cur ∧ l ≠ m.myLogin))).map
          (fun l => mkPresenceSystemMsg (l ++ str " left"))
        { m with messages := m.messages ++ joins ++ leaves }
    { m1 with presenceCount := msg.count, presenceLogins := msg.logins }

/- ===== key handling (hallModel.updateInput) ===== -/

/-- closeMention resets the four @mention autocomplete fields, as every
mention sub-mode exit path does. -/
def closeMention (m : hallModel) : hallModel :=
  { m with mentionActive := false, mentionQuery := [], mentionMatches := [],
           mentionCursor := 0 }

/-- closeProject resets the four #project autocomplete fields. -/
def closeProject (m : hallModel) : hallModel :=
  { m with projectActive := false, projectQuery := [], projectMatches := [],
           projectCursor := 0 }

/-- normalKeyInput is the normal-mode part of `hallModel.updateInput`
(no autocomplete sub-mode intercepting the key). -/
def normalKeyInput (m : hallModel) (key : GoStr) : hallModel × Cmd :=
  if key = str "esc" then
    ({ m with inputFocused := false, status := [] }, Cmd.none)
  else if key = str "shift+enter" ∨ key = str "alt+enter" then
    (if m.input.length < maxInputLen then { m with input := m.input ++ str "\n" }
     else m, Cmd.none)
  else if key = str "enter" then
    if trimSpaceG m.input = [] then (m, Cmd.none)
    else if m.myLogin = [] then
      ({ m with status := str "run: grimora login" }, Cmd.none)
    else
      ({ m with input := [], status := [] },
       Cmd.batch (if (str "/build ").isPrefixOf (trimSpaceG m.input) then
           [Cmd.sendRoomMessage (trimSpaceG m.input), Cmd.loadProjects]
         else [Cmd.sendRoomMessage (trimSpaceG m.input)]))
  else if key = str "@" then
    if maxInputLen ≤ m.input.length then (m, Cmd.none)
    else
      (if (filterLogins m []).length = 0 then
         { m with input := m.input ++ str "@", mentionActive := false,
                  mentionQuery := [], mentionMatches := filterLogins m [],
                  mentionCursor := 0 }
       else
         { m with input := m.input ++ str "@", mentionActive := true,
                  mentionQuery := [], mentionMatches := filterLogins m [],
                  mentionCursor := 0 }, Cmd.none)
  else if key = str "#" then
    if maxInputLen ≤ m.input.length then (m, Cmd.none)
    else
      (if 0 < m.myProjects.length then
         { m with input := m.input ++ str "#", projectActive := true,
                  projectQuery := [],
                  projectMatches := filterProjects m [], projectCursor := 0 }
       else { m with input := m.input ++ str "#" }, Cmd.none)
  else
    ({ m with input := editRune m.input key }, Cmd.none)

/-- projectKeyInput is the #project autocomplete part of
`hallModel.updateInput`. -/
def projectKeyInput (m : hallModel) (key : GoStr) : hallModel × Cmd :=
  if key = str "tab" ∨ key = str "enter" then
    if 0 < m.projectMatches.length then
      if (goFields (m.projectMatches.getD m.projectCursor default).name).length = 0 then
        ({ m with projectActive := false }, Cmd.none)
      else
        (closeProject { m with
          input := trimSuffixG m.input (str "#" ++ m.projectQuery)
                     ++ str "#"
                     ++ (goFields (m.projectMatches.getD m.projectCursor default).name).getD 0 []
                     ++ str " " }, Cmd.none)
    else (closeProject m, Cmd.none)
  else if key = str "up" then
    (if 0 < m.projectCursor then { m with projectCursor := m.projectCursor - 1 }
     else m, Cmd.none)
  else if key = str "down" then
    (if m.projectCursor + 1 < m.projectMatches.length then
       { m with projectCursor := m.projectCursor + 1 }
     else m, Cmd.none)
  else if key = str "esc" ∨ key = str " " then
    (closeProject (if key = str " " then { m with input := m.input ++ str " " }
                   else m), Cmd.none)
  else if key = str "backspace" then
    if m.projectQuery = [] then
      (closeProject { m with input := trimSuffixG m.input (str "#") }, Cmd.none)
    else
      (if (filterProjects m (editRune m.projectQuery (str "backspace"))).length = 0 then
         closeProject { m with
           projectQuery := editRune m.projectQuery (str "backspace"),
           input := editRune m.input (str "backspace"),
           projectMatches := filterProjects m (editRune m.projectQuery (str "backspace")),
           projectCursor := 0 }
       else { m with
           projectQuery := editRune m.projectQuery (str "backspace"),
           input := editRune m.input (str "backspace"),
           projectMatches := filterProjects m (editRune m.projectQuery (str "backspace")),
           projectCursor := 0 }, Cmd.none)
  else if utf8Len key = 1 then
    if maxInputLen ≤ m.input.length then (m, Cmd.none)
    else
      (if (filterProjects m (m.projectQuery ++ key)).length = 0 then
         closeProject { m with
           projectQuery := m.projectQuery ++ key, input := m.input ++ key,
           projectMatches := filterProjects m (m.projectQuery ++ key),
           projectCursor := 0 }
       else { m with
           projectQuery := m.projectQuery ++ key, input := m.input ++ key,
           projectMatches := filterProjects m (m.projectQuery ++ key),
           projectCursor := 0 }, Cmd.none)
  else (m, Cmd.none)

/-- postMention is the rest of `updateInput` after the mention section:
the project autocomplete section, then normal-mode handling. -/
def postMention (m : hallModel) (key : GoStr) : hallModel × Cmd :=
  if m.projectActive then projectKeyInput m key else normalKeyInput m key

/-- mentionKeyInput is the @mention autocomplete part of
`hallModel.updateInput`.  Note the Go `case "enter"` with no matches does
not return: it clears `mentionActive` and continues into the code below
the mention section (`postMention`). -/
def mentionKeyInput (m : hallModel) (key : GoStr) : hallModel × Cmd :=
  if key = str "tab" then
    (closeMention (if 0 < m.mentionMatches.length then
        { m with input := trimSuffixG m.input (str "@" ++ m.mentionQuery)
                   ++ str "@" ++ m.mentionMatches.getD m.mentionCursor [] ++ str " " }
      else m), Cmd.none)
  else if key = str "up" then
    (if 0 < m.mentionCursor then { m with mentionCursor := m.mentionCursor - 1 }
     else m, Cmd.none)
  else if key = str "down" then
    (if m.mentionCursor + 1 < m.mentionMatches.length then
       { m with mentionCursor := m.mentionCursor + 1 }
     else m, Cmd.none)
  else if key = str "esc" ∨ key = str " " then
    (closeMention (if key = str " " then { m with input := m.input ++ str " " }
                   else m), Cmd.none)
  else if key = str "backspace" then
    if m.mentionQuery = [] then
      (closeMention { m with input := trimSuffixG m.input (str "@") }, Cmd.none)
    else
      ({ m with mentionQuery := editRune m.mentionQuery (str "backspace"),
                input := editRune m.input (str "backspace"),
                mentionMatches := filterLogins m (editRune m.mentionQuery (str "backspace")),
                mentionCursor := 0 }, Cmd.none)
  else if key = str "enter" then
    if 0 < m.mentionMatches.length then
      (closeMention { m with
         input := trimSuffixG m.input (str "@" ++ m.mentionQuery)
                    ++ str "@" ++ m.mentionMatches.getD m.mentionCursor [] ++ str " " },
       Cmd.none)
    else postMention { m with mentionActive := false } key
  else if utf8Len key = 1 then
    if maxInputLen ≤ m.input.length then (m, Cmd.none)
    else
      (if (filterLogins m (m.mentionQuery ++ key)).length = 0 then
         closeMention { m with
           mentionQuery := m.mentionQuery ++ key, input := m.input ++ key,
           mentionMatches := filterLogins m (m.mentionQuery ++ key),
           mentionCursor := 0 }
       else { m with
           mentionQuery := m.mentionQuery ++ key, input := m.input ++ key,
           mentionMatches := filterLogins m (m.mentionQuery ++ key),
           mentionCursor := 0 }, Cmd.none)
  else (m, Cmd.none)

/-- updateInput handles key events when the text input is focused. -/
def updateInput (m : hallModel) (key : GoStr) : hallModel × Cmd :=
  if m.mentionActive then mentionKeyInput m key else postMention m key

/- ===== rendering (name column of renderPlainMessage) ===== -/

/-- StyleTag names the lipgloss styles the plain-message renderer applies
to the name column. -/
inductive StyleTag where
  | chatSelfName
  | chatText
  | guildStyle (guild : GoStr)
deriving Repr, DecidableEq

/-- Styled is a rendered fragment: lipgloss styling only wraps the text in
colour codes, so it is modelled as the style applied plus the text. -/
structure Styled where
  tag : StyleTag
  text : GoStr
deriving Repr, DecidableEq

/-- renderNamePart is the name-column computation of
`hallModel.renderPlainMessage`: self-authored entries get the self style,
others get their guild style (or the plain text style); the text is the
sender login in every case. -/
def renderNamePart (msg : chatMessage) : Styled :=
  if msg.IsSelf then ⟨StyleTag.chatSelfName, msg.SenderLogin⟩
  else if msg.SenderGuild ≠ [] then ⟨StyleTag.guildStyle msg.SenderGuild, msg.SenderLogin⟩
  else ⟨StyleTag.chatText, msg.SenderLogin⟩

/- ===== hardWrap ===== -/

/-- Modelled from the spec: `lipgloss.Width` (an external library) is the
visual width of plain text in terminal cells, the sum of per-rune cell
widths.  The per-rune width is represented by its principal Unicode
classes: zero-width combining marks and zero-width format characters
occupy no cell; East Asian wide and fullwidth runes (Hangul Jamo, CJK,
Hangul syllables, compatibility ideographs, fullwidth forms) and emoji
occupy two cells; every other rune occupies one cell.  ASCII text is
exactly one cell per rune. -/
def runeWidth (c : Char) : Nat :=
  if (0x300 ≤ c.val ∧ c.val ≤ 0x36F) ∨ (0x200B ≤ c.val ∧ c.val ≤ 0x200F) then 0
  else if (0x1100 ≤ c.val ∧ c.val ≤ 0x115F) ∨ (0x2E80 ≤ c.val ∧ c.val ≤ 0xA4CF)
      ∨ (0xAC00 ≤ c.val ∧ c.val ≤ 0xD7A3) ∨ (0xF900 ≤ c.val ∧ c.val ≤ 0xFAFF)
      ∨ (0xFE30 ≤ c.val ∧ c.val ≤ 0xFE4F) ∨ (0xFF00 ≤ c.val ∧ c.val ≤ 0xFF60)
      ∨ (0xFFE0 ≤ c.val ∧ c.val ≤ 0xFFE6) ∨ (0x1F300 ≤ c.val ∧ c.val ≤ 0x1F64F)
      ∨ (0x1F900 ≤ c.val ∧ c.val ≤ 0x1F9FF) ∨ (0x20000 ≤ c.val ∧ c.val ≤ 0x3FFFD)
    then 2
  else 1

/-- Visual width of one line of runes. -/
def lineWidth (l : GoStr) : Nat := (l.map runeWidth).sum

/-- scanEnd is the inner loop of the hard-break: starting from `e` it
decrements until the first `e` whose prefix of runes fits in `width`
(0 when not even one rune fits). -/
def scanEnd (width : Nat) (runes : GoStr) : Nat → Nat
  | 0 => 0
  | e + 1 =>
    if width < lineWidth (runes.take (e + 1)) then scanEnd width runes e
    else e + 1

/-- fitEnd is the number of runes the hard-break takes for the next output
line: the longest fitting prefix, but at least one rune to avoid an
infinite loop. -/
def fitEnd (width : Nat) (runes : GoStr) : Nat :=
  if scanEnd width runes runes.length = 0 then 1 else scanEnd width runes runes.length

/-- hardChunksGo is the `for len(runes) > 0` slicing loop, embedded with a
fuel argument; each step consumes at least one rune, so any fuel of at
least `runes.length` runs the loop to completion. -/
def hardChunksGo (width : Nat) : Nat → GoStr → List GoStr
  | _, [] => []
  | 0, _ :: _ => []
  | fuel + 1, c :: cs =>
    (c :: cs).take (fitEnd width (c :: cs))
      :: hardChunksGo width fuel ((c :: cs).drop (fitEnd width (c :: cs)))

/-- hardChunks slices one over-long line at rune boundaries into pieces
that fit in `width`, taking at least one rune per piece. -/
def hardChunks (width : Nat) (runes : GoStr) : List GoStr :=
  hardChunksGo width runes.length runes

/-- wrapOneLine keeps a fitting line whole and hard-breaks an over-long
one. -/
def wrapOneLine (width : Nat) (line : GoStr) : List GoStr :=
  if lineWidth line ≤ width then [line] else hardChunks width line

/-- splitLines models `strings.Split(s, "\n")`. -/
def splitLines (s : GoStr) : List GoStr := s.splitOn '\n'

/-- joinLines models `strings.Join(lines, "\n")`. -/
def joinLines (lines : List GoStr) : GoStr := List.intercalate (str "\n") lines

/-- hardWrap scans each line and hard-breaks any that exceed width at rune
boundaries (Go guards `width <= 0`; with a natural-number width that is
width = 0). -/
def hardWrap (s : GoStr) (width : Nat) : GoStr :=
  if width = 0 then s
  else joinLines ((splitLines s).flatMap (wrapOneLine width))

/- ===== derived notions used by the claims ===== -/

/-- mergeTick is the model state after one successful message fetch is
handled. -/
def mergeTick (m : hallModel) (batch : List RoomMessage) : hallModel :=
  (handleHallMessages m { messages := batch, err := Option.none }).1

/-- idCount counts the window entries bearing a given ID. -/
def idCount (l : List chatMessage) (rid : GoStr) : Nat :=
  l.countP (fun c => decide (c.ID = rid))

/-- chronOrdered is the retained-window ordering invariant: non-decreasing
creation time. -/
def chronOrdered (l : List chatMessage) : Prop := List.Sorted timeLe l

/-- sigilInvariant states the autocomplete consistency the spec claims:
the two sub-modes are mutually exclusive, and while a sub-mode is active
the buffer ends with the triggering sigil followed by the current query. -/
def sigilInvariant (m : hallModel) : Prop :=
  ¬ (m.mentionActive = true ∧ m.projectActive = true) ∧
  (m.mentionActive = true → ∃ t, m.input = t ++ (str "@" ++ m.mentionQuery)) ∧
  (m.projectActive = true → ∃ t, m.input = t ++ (str "#" ++ m.projectQuery))

/- ===== concrete states used by scenario theorems and witnesses ===== -/

/-- realMsg5 is a plain real message with creation time 5. -/
def realMsg5 : chatMessage where
  ID := str "m5"
  SenderLogin := str "alice"
  SenderGuild := []
  Body := str "hi"
  Kind := str "message"
  Metadata := []
  CreatedAt := 5
  IsSystem := false
  IsGrimoire := false
  IsSelf := false
  Reactions := []
  animFrame := 0

/-- mUnsorted holds one real message and a previous presence snapshot, so
that the next presence diff appends a zero-time synthetic entry. -/
def mUnsorted : hallModel :=
  { newHallModel false with
      messages := [realMsg5], presenceLogins := some [str "alice"] }

/-- mPresence is the spec's presence-diff scenario state: previous
snapshot {alice, bob}, local identity "me". -/
def mPresence : hallModel :=
  { newHallModel false with
      presenceLogins := some [str "alice", str "bob"], myLogin := str "me" }

/-- mAuth is composing " hi " with no local identity known. -/
def mAuth : hallModel := { newHallModel false with input := str " hi " }

/-- cmSelf is a self-authored plain entry from login "alice". -/
def cmSelf : chatMessage := { realMsg5 with SenderLogin := str "alice", IsSelf := true }

/-- mAtCap is in the mention sub-mode with the input buffer already at the
2000-rune cap. -/
def mAtCap : hallModel :=
  { newHallModel false with
      mentionActive := true, input := List.replicate 2000 'a' }

/-- mStale is in the mention sub-mode with a two-rune query whose stored
matches no longer agree with the (changed) candidate pool. -/
def mStale : hallModel :=
  { newHallModel false with
      mentionActive := true, mentionQuery := str "ze", input := str "@ze",
      mentionMatches := [str "zed"] }

/-- mTypeOut is in the mention sub-mode where typing one more character
empties the candidate set. -/
def mTypeOut : hallModel :=
  { newHallModel false with
      mentionActive := true, mentionQuery := str "z", input := str "@z",
      mentionMatches := [str "zed"], allLogins := [str "zed"] }

/-- cWide is a double-width rune: U+4F60, East Asian wide, two terminal
cells. -/
def cWide : Char := '你'

/-- bigWindow is a window of 201 synthetic entries, enough to trigger the
retention trim. -/
def bigWindow : List chatMessage :=
  List.replicate 201 (mkPresenceSystemMsg (str "x joined"))

/-- mBig holds 201 entries, one past the retention cap. -/
def mBig : hallModel := { newHallModel false with messages := bigWindow }

/-- rMsg1 is a wire message with ID "m1" at time 1. -/
def rMsg1 : RoomMessage where
  id := str "m1"
  senderLogin := str "alice"
  senderGuild := []
  body := str "hi"
  kind := []
  metadata := []
  createdAt := 1

/-- reactMsg is a reaction-count result for message "m1". -/
def reactMsg : HallReactionsMsg where
  reactions := some [(str "m1", [{ Emoji := str "fire", Count := 2 }])]
  err := Option.none

/- ===== general lemmas about the model ===== -/

theorem sortByTime_perm (l : List chatMessage) : (sortByTime l).Perm l :=
  List.perm_insertionSort timeLe l

theorem sortByTime_sorted (l : List chatMessage) : List.Sorted timeLe (sortByTime l) :=
  List.sorted_insertionSort timeLe l

theorem sortByTime_length (l : List chatMessage) : (sortByTime l).length = l.length :=
  (sortByTime_perm l).length_eq

theorem mergeTick_messages (m : hallModel) (batch : List RoomMessage) :
    (mergeTick m batch).messages =
      (trimWindow (sortByTime (mergeResult m batch).1) (mergeResult m batch).2).1 := rfl

theorem mergeTick_seenIDs (m : hallModel) (batch : List RoomMessage) :
    (mergeTick m batch).seenIDs =
      (trimWindow (sortByTime (mergeResult m batch).1) (mergeResult m batch).2).2 := rfl

theorem trimWindow_fst_eq (msgs : List chatMessage) (seen : Finset GoStr) :
    (trimWindow msgs seen).1 =
      if 200 < msgs.length then msgs.drop (msgs.length - 200) else msgs := by
  unfold trimWindow
  split
  case isTrue => rfl
  case isFalse => rfl

theorem trimWindow_snd_eq (msgs : List chatMessage) (seen : Finset GoStr) :
    (trimWindow msgs seen).2 =
      if 200 < msgs.length then
        ((msgs.drop (msgs.length - 200)).map (fun c => c.ID)).toFinset
      else seen := by
  unfold trimWindow
  split
  case isTrue => rfl
  case isFalse => rfl

theorem trimWindow_fst_sorted (msgs : List chatMessage) (seen : Finset GoStr)
    (h : List.Sorted timeLe msgs) : List.Sorted timeLe (trimWindow msgs seen).1 := by
  rw [trimWindow_fst_eq]
  split
  case isTrue => exact List.Pairwise.drop h
  case isFalse => exact h

/- ===== claim theorems ===== -/

/-- C2 (amended): after every successful message-fetch merge the retained
window is in non-decreasing CreatedAt order (both with and without the
retention trim). -/
theorem hall_sorted_after_merge (m : hallModel) (batch : List RoomMessage) :
    chronOrdered ((mergeTick m batch).messages) := by
  show List.Sorted timeLe _
  rw [mergeTick_messages]
  exact trimWindow_fst_sorted _ _ (sortByTime_sorted _)

/-- C2 (counterexample): a presence update appends a zero-time synthetic
entry after a time-5 real message, leaving the window out of chronological
order, so the ordering invariant does not survive presence handling. -/
theorem hall_sorted_presence_counterexample :
    ¬ chronOrdered ((handleHallPresence mUnsorted
        { count := 0, logins := some [], err := Option.none }).messages) := by
  intro h
  have heval : (handleHallPresence mUnsorted
      { count := 0, logins := some [], err := Option.none }).messages
      = [realMsg5, mkPresenceSystemMsg (str "alice left")] := rfl
  rw [chronOrdered, heval] at h
  have h5 := (List.sorted_cons.mp h).1 (mkPresenceSystemMsg (str "alice left"))
    (List.mem_singleton.mpr rfl)
  exact absurd h5 (by decide)

/-- C7: diffing presence snapshots previous {alice, bob} against current
{bob, carol} (local identity none of them) appends exactly one
"carol joined" and one "alice left" synthetic entry and nothing for bob;
and the very first snapshot (nil previous) appends nothing at all. -/
theorem presence_diff_scenario :
    (∀ (m : hallModel) (count : Nat),
      m.presenceLogins = some [str "alice", str "bob"] →
      m.myLogin ≠ str "alice" → m.myLogin ≠ str "bob" → m.myLogin ≠ str "carol" →
      (handleHallPresence m
          { count := count, logins := some [str "bob", str "carol"],
            err := Option.none }).messages
        = m.messages ++ [mkPresenceSystemMsg (str "carol joined"),
                         mkPresenceSystemMsg (str "alice left")]) ∧
    (∀ (m : hallModel) (msg : HallPresenceMsg), m.presenceLogins = Option.none →
      (handleHallPresence m msg).messages = m.messages) := by
  constructor
  · intro m count hprev h1 h2 h3
    simp +decide [handleHallPresence, hprev, List.filter, h1.symm, h2.symm, h3.symm]
  · intro m msg hprev
    cases herr : msg.err with
    | some e => simp [handleHallPresence, herr]
    | none => simp [handleHallPresence, herr, hprev]

/-- C7 (witness): the scenario instantiated at the concrete state
mPresence, and the first-snapshot case at the fresh model. -/
theorem presence_diff_scenario_witness :
    (handleHallPresence mPresence
        { count := 2, logins := some [str "bob", str "carol"],
          err := Option.none }).messages
      = mPresence.messages ++ [mkPresenceSystemMsg (str "carol joined"),
                               mkPresenceSystemMsg (str "alice left")] ∧
    (handleHallPresence (newHallModel false)
        { count := 1, logins := some [str "alice"], err := Option.none }).messages
      = (newHallModel false).messages :=
  ⟨presence_diff_scenario.1 mPresence 2 rfl (by decide) (by decide) (by decide),
   presence_diff_scenario.2 (newHallModel false) _ rfl⟩

/-- C8: Enter in normal mode with non-empty trimmed input and no local
identity is rejected locally: the "run: grimora login" status is set, the
buffer is preserved, and no command (in particular no send request) is
emitted. -/
theorem enter_requires_login (m : hallModel)
    (hm : m.mentionActive = false) (hp : m.projectActive = false)
    (hbody : trimSpaceG m.input ≠ []) (hlogin : m.myLogin = []) :
    ((updateInput m (str "enter")).1).input = m.input ∧
    ((updateInput m (str "enter")).1).status = str "run: grimora login" ∧
    (updateInput m (str "enter")).2 = Cmd.none := by
  simp +decide [updateInput, postMention, normalKeyInput, hm, hp, hbody, hlogin]

/-- C8 (witness): the rejection at the concrete state mAuth. -/
theorem enter_requires_login_witness :
    ((updateInput mAuth (str "enter")).1).input = mAuth.input ∧
    ((updateInput mAuth (str "enter")).1).status = str "run: grimora login" ∧
    (updateInput mAuth (str "enter")).2 = Cmd.none :=
  enter_requires_login mAuth rfl rfl (by decide) rfl

/-- C9 (counterexample): a self-authored entry from login "alice" is
rendered with the sender's login in the name column, not a first-person
marker such as "you". -/
theorem self_render_counterexample :
    cmSelf.IsSelf = true ∧ (renderNamePart cmSelf).text = cmSelf.SenderLogin ∧
    (renderNamePart cmSelf).text ≠ str "you" := by
  refine ⟨rfl, rfl, ?_⟩
  decide

/-- C9 (amended): self-authored entries are visually distinguished by the
dedicated self name style, but the name column still shows the sender's
login; normalization gives the same ID and CreatedAt (hence the same
ordering position and dedup identity) regardless of self status, and the
chronological comparison ignores the IsSelf flag. -/
theorem self_render_amended :
    (∀ msg : chatMessage, (renderNamePart msg).text = msg.SenderLogin) ∧
    (∀ msg : chatMessage, msg.IsSelf = true →
      (renderNamePart msg).tag = StyleTag.chatSelfName) ∧
    (∀ msg : chatMessage, msg.IsSelf = false →
      (renderNamePart msg).tag ≠ StyleTag.chatSelfName) ∧
    (∀ (L L' : GoStr) (raw : RoomMessage),
      (convertMsg L raw).ID = raw.id ∧ (convertMsg L raw).CreatedAt = raw.createdAt ∧
      convertMsg L raw = { convertMsg L' raw with IsSelf := decide (raw.senderLogin = L) }) ∧
    (∀ (a b : chatMessage) (x y : Bool),
      timeLe { a with IsSelf := x } { b with IsSelf := y } ↔ timeLe a b) := by
  refine ⟨?_, ?_, ?_, ?_, ?_⟩
  · intro msg
    rw [renderNamePart]
    split
    · rfl
    · split <;> rfl
  · intro msg hself
    rw [renderNamePart, if_pos hself]
  · intro msg hself
    rw [renderNamePart, if_neg (by rw [hself]; exact Bool.false_ne_true)]
    split <;> simp
  · intro L L' raw
    refine ⟨rfl, rfl, ?_⟩
    rfl
  · intro a b x y
    exact Iff.rfl

/-- C9 (witness): the amended statement applied at the concrete self entry
cmSelf. -/
theorem self_render_amended_witness :
    (renderNamePart cmSelf).text = cmSelf.SenderLogin ∧
    (renderNamePart cmSelf).tag = StyleTag.chatSelfName :=
  ⟨self_render_amended.1 cmSelf, self_render_amended.2.1 cmSelf rfl⟩

/- ===== hardWrap lemmas (C5) ===== -/

theorem one_le_fitEnd (width : Nat) (runes : GoStr) : 1 ≤ fitEnd width runes := by
  unfold fitEnd
  split
  case isTrue => exact Nat.le_refl 1
  case isFalse h => exact Nat.one_le_iff_ne_zero.mpr h

theorem drop_fitEnd_length_le (w f : Nat) (c : Char) (cs : GoStr)
    (hlen : (c :: cs).length ≤ f + 1) :
    ((c :: cs).drop (fitEnd w (c :: cs))).length ≤ f := by
  have h1 := one_le_fitEnd w (c :: cs)
  rw [List.length_drop]
  simp only [List.length_cons] at hlen ⊢
  omega

theorem scanEnd_spec (w : Nat) (rs : GoStr) :
    ∀ n, scanEnd w rs n = 0 ∨ lineWidth (rs.take (scanEnd w rs n)) ≤ w := by
  intro n
  induction n with
  | zero => exact Or.inl rfl
  | succ e ih =>
    rw [scanEnd]
    split
    case isTrue => exact ih
    case isFalse h => exact Or.inr (Nat.le_of_not_lt h)

theorem fitEnd_width (w : Nat) (rs : GoStr)
    (hfit : ∀ c ∈ rs, runeWidth c ≤ w) (hrs : rs ≠ []) :
    lineWidth (rs.take (fitEnd w rs)) ≤ w := by
  rw [fitEnd]
  split
  case isTrue =>
    cases rs with
    | nil => exact absurd rfl hrs
    | cons c cs =>
      have htake : (c :: cs).take 1 = [c] := rfl
      rw [htake]
      have hone : lineWidth [c] = runeWidth c := by
        rw [lineWidth, List.map_cons, List.map_nil, List.sum_cons, List.sum_nil]
        omega
      rw [hone]
      exact hfit c (List.mem_cons_self c cs)
  case isFalse h =>
    rcases scanEnd_spec w rs rs.length with h0 | hle
    · exact absurd h0 h
    · exact hle

theorem hardChunksGo_flatten (w : Nat) :
    ∀ (fuel : Nat) (rs : GoStr), rs.length ≤ fuel →
      (hardChunksGo w fuel rs).flatten = rs := by
  intro fuel
  induction fuel with
  | zero =>
    intro rs hlen
    cases rs with
    | nil => rfl
    | cons c cs => simp at hlen
  | succ f ih =>
    intro rs hlen
    cases rs with
    | nil => rfl
    | cons c cs =>
      rw [hardChunksGo, List.flatten_cons, ih]
      · exact List.take_append_drop _ _
      · exact drop_fitEnd_length_le w f c cs hlen

theorem hardChunksGo_mem (w : Nat) :
    ∀ (fuel : Nat) (rs : GoStr), rs.length ≤ fuel →
      ∀ out ∈ hardChunksGo w fuel rs,
        out ≠ [] ∧ ((∀ c ∈ rs, runeWidth c ≤ w) → lineWidth out ≤ w) := by
  intro fuel
  induction fuel with
  | zero =>
    intro rs hlen out hout
    cases rs with
    | nil => simp [hardChunksGo] at hout
    | cons c cs => simp at hlen
  | succ f ih =>
    intro rs hlen out hout
    cases rs with
    | nil => simp [hardChunksGo] at hout
    | cons c cs =>
      rw [hardChunksGo, List.mem_cons] at hout
      rcases hout with heq | hmem
      · subst heq
        constructor
        · have h1 := one_le_fitEnd w (c :: cs)
          have hlt : ((c :: cs).take (fitEnd w (c :: cs))).length =
              min (fitEnd w (c :: cs)) (c :: cs).length := List.length_take _ _
          intro hnil
          rw [hnil] at hlt
          simp only [List.length_nil, List.length_cons] at hlt
          omega
        · intro hfit
          exact fitEnd_width w (c :: cs) hfit (by simp)
      · have hrec := ih _ (drop_fitEnd_length_le w f c cs hlen) out hmem
        exact ⟨hrec.1,
          fun hfit => hrec.2 (fun x hx => hfit x (List.mem_of_mem_drop hx))⟩

theorem hardChunks_flatten (w : Nat) (rs : GoStr) : (hardChunks w rs).flatten = rs :=
  hardChunksGo_flatten w rs.length rs (Nat.le_refl _)

theorem hardChunks_mem (w : Nat) (rs : GoStr) :
    ∀ out ∈ hardChunks w rs,
      out ≠ [] ∧ ((∀ c ∈ rs, runeWidth c ≤ w) → lineWidth out ≤ w) :=
  hardChunksGo_mem w rs.length rs (Nat.le_refl _)

/-- C5 (counterexample): at width 1 — within the claim's "every input
string and every width ≥ 1" — a single double-width rune is forced
through the at-least-one-rune path and emitted as an output line of
visual width 2 > 1, so "every output line has visual width ≤ width" is
false as stated (this is the case the spec itself excepts as
"width < 1 rune"). -/
theorem hardWrap_width_counterexample :
    (1 : Nat) ≤ 1 ∧
    1 < lineWidth [cWide] ∧
    wrapOneLine 1 [cWide] = [[cWide]] ∧
    hardWrap [cWide] 1 = [cWide] ∧
    ∃ out ∈ wrapOneLine 1 [cWide], 1 < lineWidth out := by
  refine ⟨Nat.le_refl 1, by decide, by decide, by decide, ?_⟩
  exact ⟨[cWide], by decide, by decide⟩

/-- C5 (amended): for every input and every width the hard wrapper splits
only at rune boundaries and is content-preserving (re-joining the output
of each input line gives the line back, and the concatenation of all
output lines is the input with its breaks removed), and every line
produced from an over-long line holds at least one rune, so the wrap
always terminates; every output line has visual width at most the width
whenever every rune of the line fits within the width — in particular for
all single-cell text at any width ≥ 1 — but a single rune wider than the
width is still emitted on a line of its own, exceeding the width.  The
spec's scenario holds: a 100-rune single-cell token at width 40 becomes
exactly three lines of 40, 40 and 20 runes whose concatenation is the
token. -/
theorem hardWrap_spec :
    (∀ (width : Nat) (line : GoStr),
      (wrapOneLine width line).flatten = line ∧
      (width < lineWidth line → ∀ out ∈ wrapOneLine width line, out ≠ []) ∧
      ((∀ c ∈ line, runeWidth c ≤ width) →
        ∀ out ∈ wrapOneLine width line, lineWidth out ≤ width)) ∧
    (∀ (width : Nat) (s : GoStr), 1 ≤ width →
      hardWrap s width = joinLines ((splitLines s).flatMap (wrapOneLine width)) ∧
      ((splitLines s).flatMap (wrapOneLine width)).flatten = (splitLines s).flatten) ∧
    (hardChunks 40 (List.replicate 100 'a') =
        [List.replicate 40 'a', List.replicate 40 'a', List.replicate 20 'a'] ∧
     hardWrap (List.replicate 100 'a') 40 =
        List.replicate 40 'a' ++ str "\n" ++ List.replicate 40 'a' ++ str "\n"
          ++ List.replicate 20 'a') := by
  have hline : ∀ (width : Nat) (line : GoStr),
      (wrapOneLine width line).flatten = line ∧
      (width < lineWidth line → ∀ out ∈ wrapOneLine width line, out ≠ []) ∧
      ((∀ c ∈ line, runeWidth c ≤ width) →
        ∀ out ∈ wrapOneLine width line, lineWidth out ≤ width) := by
    intro width line
    rw [wrapOneLine]
    split
    case isTrue hfitLine =>
      refine ⟨by simp, ?_, ?_⟩
      · intro hover
        exact absurd hfitLine (Nat.not_le_of_lt hover)
      · intro _ out hout
        rw [List.mem_singleton] at hout
        subst hout
        exact hfitLine
    case isFalse hover =>
      refine ⟨hardChunks_flatten width line, ?_, ?_⟩
      · intro _ out hout
        exact (hardChunks_mem width line out hout).1
      · intro hfit out hout
        exact (hardChunks_mem width line out hout).2 hfit
  refine ⟨hline, ?_, by decide, by decide⟩
  intro width s hw
  constructor
  · rw [hardWrap, if_neg (by omega)]
  · induction splitLines s with
    | nil => rfl
    | cons l ls ih =>
      rw [List.flatMap_cons, List.flatten_append, ih, List.flatten_cons,
        (hline width l).1]

/-- C5 (witness): the wrapper facts instantiated at width 40 on the
100-rune single-cell token, with the per-rune fit and width hypotheses
discharged concretely. -/
theorem hardWrap_spec_witness :
    (wrapOneLine 40 (List.replicate 100 'a')).flatten = List.replicate 100 'a' ∧
    (∀ out ∈ wrapOneLine 40 (List.replicate 100 'a'), lineWidth out ≤ 40) ∧
    hardWrap (List.replicate 100 'a') 40 =
      joinLines ((splitLines (List.replicate 100 'a')).flatMap (wrapOneLine 40)) :=
  ⟨(hardWrap_spec.1 40 (List.replicate 100 'a')).1,
   (hardWrap_spec.1 40 (List.replicate 100 'a')).2.2 (by decide),
   (hardWrap_spec.2.1 40 (List.replicate 100 'a') (by decide)).1⟩

/- ===== retention lemmas (C1) ===== -/

theorem sorted_take_le_drop (l : List chatMessage) (h : List.Sorted timeLe l) (n : Nat) :
    ∀ e ∈ l.take n, ∀ s_ ∈ l.drop n, e.CreatedAt ≤ s_.CreatedAt := by
  rw [← List.take_append_drop n l] at h
  exact (List.pairwise_append.mp h).2.2

theorem trimWindow_core (msgs : List chatMessage) (seen : Finset GoStr)
    (hs : List.Sorted timeLe msgs) (hc : 200 < msgs.length) :
    (trimWindow msgs seen).1.length = 200 ∧
    msgs = msgs.take (msgs.length - 200) ++ (trimWindow msgs seen).1 ∧
    (∀ e ∈ msgs.take (msgs.length - 200), ∀ s_ ∈ (trimWindow msgs seen).1,
      e.CreatedAt ≤ s_.CreatedAt) ∧
    (trimWindow msgs seen).2 = ((trimWindow msgs seen).1.map (fun c => c.ID)).toFinset := by
  have h1 : (trimWindow msgs seen).1 = msgs.drop (msgs.length - 200) := by
    rw [trimWindow_fst_eq, if_pos hc]
  have h2 : (trimWindow msgs seen).2 =
      ((msgs.drop (msgs.length - 200)).map (fun c => c.ID)).toFinset := by
    rw [trimWindow_snd_eq, if_pos hc]
  refine ⟨?_, ?_, ?_, ?_⟩
  · rw [h1, List.length_drop]
    omega
  · rw [h1, List.take_append_drop]
  · rw [h1]
    exact sorted_take_le_drop msgs hs _
  · rw [h1, h2]

/-- C1: after every successfully handled message fetch the window holds at
most 200 entries; when the merged total exceeds 200, exactly 200 remain,
they are the most-recent tail of the chronologically sorted merge (every
evicted entry is no newer than every survivor, and eviction removes
nothing else: the merge is a permutation of evicted ++ surviving), and the
seen-ID set is rebuilt to exactly the IDs of the surviving entries. -/
theorem hall_retention_cap (m : hallModel) (batch : List RoomMessage) :
    (mergeTick m batch).messages.length ≤ 200 ∧
    (200 < (mergeResult m batch).1.length →
      (mergeTick m batch).messages.length = 200 ∧
      sortByTime (mergeResult m batch).1 =
        (sortByTime (mergeResult m batch).1).take ((mergeResult m batch).1.length - 200)
          ++ (mergeTick m batch).messages ∧
      ((mergeResult m batch).1).Perm
        ((sortByTime (mergeResult m batch).1).take ((mergeResult m batch).1.length - 200)
          ++ (mergeTick m batch).messages) ∧
      (∀ e ∈ (sortByTime (mergeResult m batch).1).take
          ((mergeResult m batch).1.length - 200),
        ∀ s_ ∈ (mergeTick m batch).messages, e.CreatedAt ≤ s_.CreatedAt) ∧
      (mergeTick m batch).seenIDs =
        ((mergeTick m batch).messages.map (fun c => c.ID)).toFinset) := by
  have hlen : (sortByTime (mergeResult m batch).1).length = (mergeResult m batch).1.length :=
    sortByTime_length _
  have hs := sortByTime_sorted (mergeResult m batch).1
  constructor
  · rw [mergeTick_messages, trimWindow_fst_eq]
    split
    case isTrue hc => rw [List.length_drop]; omega
    case isFalse hc => omega
  · intro h200
    have hc : 200 < (sortByTime (mergeResult m batch).1).length := by omega
    obtain ⟨c1, c2, c3, c4⟩ :=
      trimWindow_core (sortByTime (mergeResult m batch).1) (mergeResult m batch).2 hs hc
    rw [← mergeTick_messages] at c1 c2 c3
    rw [← mergeTick_messages, ← mergeTick_seenIDs] at c4
    rw [hlen] at c2 c3
    refine ⟨c1, c2, ?_, c3, c4⟩
    have hperm := (sortByTime_perm (mergeResult m batch).1).symm
    rw [c2] at hperm
    exact hperm

/-- C1 (witness): the trim facts at a concrete state holding 201 entries,
merged with an empty fetch batch. -/
theorem hall_retention_cap_witness :
    (mergeTick mBig []).messages.length = 200 ∧
    (mergeTick mBig []).seenIDs =
      ((mergeTick mBig []).messages.map (fun c => c.ID)).toFinset := by
  have h201 : 200 < (mergeResult mBig []).1.length := by
    have : (mergeResult mBig []).1 = bigWindow := rfl
    rw [this, bigWindow, List.length_replicate]
    omega
  exact ⟨((hall_retention_cap mBig []).2 h201).1,
         ((hall_retention_cap mBig []).2 h201).2.2.2.2⟩

/- ===== dedup lemmas (C3) ===== -/

theorem mergeResult_eq (m : hallModel) (batch : List RoomMessage) :
    mergeResult m batch = insertBatch m.myLogin (m.messages, m.seenIDs) batch := rfl

theorem insertBatch_cons (myLogin : GoStr) (acc : List chatMessage × Finset GoStr)
    (r : RoomMessage) (rest : List RoomMessage) :
    insertBatch myLogin acc (r :: rest) =
      insertBatch myLogin (insertOne myLogin acc r) rest := rfl

theorem convertMsg_ID (myLogin : GoStr) (raw : RoomMessage) :
    (convertMsg myLogin raw).ID = raw.id := rfl

theorem idCount_append (l₁ l₂ : List chatMessage) (rid : GoStr) :
    idCount (l₁ ++ l₂) rid = idCount l₁ rid + idCount l₂ rid :=
  List.countP_append _ _ _

theorem idCount_singleton (c : chatMessage) (rid : GoStr) :
    idCount [c] rid = if c.ID = rid then 1 else 0 := by
  rw [idCount, List.countP_cons]
  simp [List.countP_nil]

theorem idCount_sortByTime (l : List chatMessage) (rid : GoStr) :
    idCount (sortByTime l) rid = idCount l rid :=
  List.Perm.countP_eq _ (sortByTime_perm l)

theorem insertBatch_seen_mem (myLogin rid : GoStr) :
    ∀ (batch : List RoomMessage) (msgs : List chatMessage) (seen : Finset GoStr),
      rid ∈ (insertBatch myLogin (msgs, seen) batch).2 ↔
        rid ∈ seen ∨ ∃ r ∈ batch, r.id = rid := by
  intro batch
  induction batch with
  | nil =>
    intro msgs seen
    simp [insertBatch]
  | cons r rest ih =>
    intro msgs seen
    rw [insertBatch_cons]
    by_cases hmem : r.id ∈ seen
    · rw [insertOne, if_pos hmem]
      rw [ih msgs seen]
      have hr : r.id = rid → rid ∈ seen := fun h => h ▸ hmem
      simp only [List.exists_mem_cons_iff]
      tauto
    · rw [insertOne, if_neg hmem]
      rw [ih (msgs ++ [convertMsg myLogin r]) (insert r.id seen)]
      simp only [Finset.mem_insert, List.exists_mem_cons_iff]
      have hcomm : rid = r.id ↔ r.id = rid := eq_comm
      tauto

theorem insertBatch_idCount (myLogin rid : GoStr) :
    ∀ (batch : List RoomMessage) (msgs : List chatMessage) (seen : Finset GoStr),
      idCount (insertBatch myLogin (msgs, seen) batch).1 rid =
        idCount msgs rid +
          (if rid ∉ seen ∧ ∃ r ∈ batch, r.id = rid then 1 else 0) := by
  intro batch
  induction batch with
  | nil =>
    intro msgs seen
    simp [insertBatch]
  | cons r rest ih =>
    intro msgs seen
    rw [insertBatch_cons]
    by_cases hmem : r.id ∈ seen
    · rw [insertOne, if_pos hmem]
      rw [ih msgs seen]
      have hr : r.id = rid → rid ∈ seen := fun h => h ▸ hmem
      have hiff : (rid ∉ seen ∧ ∃ x ∈ rest, x.id = rid) ↔
          (rid ∉ seen ∧ ∃ x ∈ r :: rest, x.id = rid) := by
        simp only [List.exists_mem_cons_iff]
        tauto
      rw [if_congr hiff rfl rfl]
    · rw [insertOne, if_neg hmem]
      rw [ih (msgs ++ [convertMsg myLogin r]) (insert r.id seen)]
      rw [idCount_append, idCount_singleton, convertMsg_ID]
      by_cases hr : r.id = rid
      · rw [if_pos hr]
        have hin : rid ∈ insert r.id seen :=
          Finset.mem_insert.mpr (Or.inl hr.symm)
        rw [if_neg (fun hcon => hcon.1 hin)]
        have h2 : rid ∉ seen := fun h => hmem (hr ▸ h)
        rw [if_pos ⟨h2, ⟨r, List.mem_cons_self r rest, hr⟩⟩]
      · rw [if_neg hr]
        have hiff : (rid ∉ insert r.id seen ∧ ∃ x ∈ rest, x.id = rid) ↔
            (rid ∉ seen ∧ ∃ x ∈ r :: rest, x.id = rid) := by
          simp only [Finset.mem_insert, List.exists_mem_cons_iff]
          have hcomm : ¬ rid = r.id := fun h => hr h.symm
          tauto
        rw [Nat.add_zero, if_congr hiff rfl rfl]

theorem mergeTick_noTrim (m : hallModel) (batch : List RoomMessage)
    (h : (mergeResult m batch).1.length ≤ 200) :
    (mergeTick m batch).messages = sortByTime (mergeResult m batch).1 ∧
    (mergeTick m batch).seenIDs = (mergeResult m batch).2 := by
  have hlen := sortByTime_length (mergeResult m batch).1
  constructor
  · rw [mergeTick_messages, trimWindow_fst_eq, if_neg (by omega)]
  · rw [mergeTick_seenIDs, trimWindow_snd_eq, if_neg (by omega)]

theorem mergeTick_myLogin (m : hallModel) (batch : List RoomMessage) :
    (mergeTick m batch).myLogin = m.myLogin := by
  rw [mergeTick]
  unfold handleHallMessages
  split <;> rfl

/-- C3: with the seen-ID set faithful to the window at an ID, delivering a
message bearing that ID in two fetch batches across two sync ticks (with
no trim firing) leaves exactly one entry with that ID in the window — the
second delivery is skipped via the seen-ID set — and the by-ID reaction
merge is idempotent, so re-processing a reaction result does not change
reaction state again. -/
theorem hall_dedup_two_ticks :
    (∀ (m : hallModel) (b1 b2 : List RoomMessage) (rid : GoStr),
      (rid ∈ m.seenIDs ↔ idCount m.messages rid = 1) →
      idCount m.messages rid ≤ 1 →
      (∃ r ∈ b1, r.id = rid) →
      (∃ r ∈ b2, r.id = rid) →
      (mergeResult m b1).1.length ≤ 200 →
      (mergeResult (mergeTick m b1) b2).1.length ≤ 200 →
      idCount (mergeTick (mergeTick m b1) b2).messages rid = 1) ∧
    (∀ (m : hallModel) (msg : HallReactionsMsg),
      handleHallReactions (handleHallReactions m msg) msg =
        handleHallReactions m msg) := by
  constructor
  · intro m b1 b2 rid hiff hle hb1 hb2 ht1 ht2
    obtain ⟨hm1, hs1⟩ := mergeTick_noTrim m b1 ht1
    have hcount1 : idCount (mergeTick m b1).messages rid = 1 := by
      rw [hm1, idCount_sortByTime, mergeResult_eq, insertBatch_idCount]
      by_cases hseen : rid ∈ m.seenIDs
      · rw [hiff.mp hseen, if_neg (fun hcon => hcon.1 hseen)]
      · have h0 : idCount m.messages rid = 0 := by
          have h1 : idCount m.messages rid ≠ 1 := fun h => hseen (hiff.mpr h)
          omega
        rw [h0, if_pos ⟨hseen, hb1⟩]
    have hseen1 : rid ∈ (mergeTick m b1).seenIDs := by
      rw [hs1, mergeResult_eq]
      exact (insertBatch_seen_mem m.myLogin rid b1 m.messages m.seenIDs).mpr (Or.inr hb1)
    obtain ⟨hm2, _⟩ := mergeTick_noTrim (mergeTick m b1) b2 ht2
    rw [hm2, idCount_sortByTime, mergeResult_eq, insertBatch_idCount]
    rw [hcount1, if_neg (fun hcon => hcon.1 hseen1)]
  · intro m msg
    cases herr : msg.err with
    | some e => simp [handleHallReactions, herr]
    | none =>
      cases hreact : msg.reactions with
      | none => simp [handleHallReactions, herr, hreact]
      | some rmap =>
        have hidem : ∀ c : chatMessage,
            applyReactions rmap (applyReactions rmap c) = applyReactions rmap c := by
          intro c
          cases hl : rmap.lookup c.ID with
          | none =>
            have hc : applyReactions rmap c = c := by
              rw [applyReactions, hl]
            rw [hc, hc]
          | some rcs =>
            have hc : applyReactions rmap c = { c with Reactions := rcs } := by
              rw [applyReactions, hl]
            rw [hc]
            have hid : ({ c with Reactions := rcs } : chatMessage).ID = c.ID := rfl
            rw [applyReactions, hid, hl]
        simp only [handleHallReactions, herr, hreact]
        simp only [List.map_map]
        congr 1
        exact List.map_congr_left (fun c _ => hidem c)

/-- C3 (witness): the two-tick dedup at the fresh model receiving message
"m1" twice, and reaction-merge idempotence at a concrete result. -/
theorem hall_dedup_two_ticks_witness :
    idCount (mergeTick (mergeTick (newHallModel false) [rMsg1]) [rMsg1]).messages
        (str "m1") = 1 ∧
    handleHallReactions (handleHallReactions (newHallModel false) reactMsg) reactMsg =
      handleHallReactions (newHallModel false) reactMsg :=
  ⟨hall_dedup_two_ticks.1 (newHallModel false) [rMsg1] [rMsg1] (str "m1")
      (by decide) (by decide) (by decide) (by decide) (by decide) (by decide),
   hall_dedup_two_ticks.2 (newHallModel false) reactMsg⟩

/- ===== length-cap lemmas (C4) ===== -/

theorem utf8Len_one {key : GoStr} (h : utf8Len key = 1) : key.length = 1 := by
  cases key with
  | nil => simp [utf8Len] at h
  | cons c cs =>
    cases cs with
    | nil => rfl
    | cons d ds =>
      exfalso
      have h1 : 0 < c.utf8Size := Char.utf8Size_pos c
      have h2 : 0 < d.utf8Size := Char.utf8Size_pos d
      rw [utf8Len, List.map_cons, List.map_cons, List.sum_cons, List.sum_cons] at h
      omega

theorem trimSuffixG_length_le (s suff : GoStr) :
    (trimSuffixG s suff).length ≤ s.length := by
  rw [trimSuffixG]
  split
  case isTrue =>
    rw [List.length_take]
    omega
  case isFalse => exact Nat.le_refl _

theorem editRune_length_le (text key : GoStr) (h : text.length ≤ maxInputLen) :
    (editRune text key).length ≤ maxInputLen := by
  simp only [editRune]
  split
  case isTrue =>
    split
    case isTrue => rw [List.length_dropLast]; omega
    case isFalse => exact h
  case isFalse =>
    split
    case isTrue => exact h
    case isFalse =>
      split
      case isTrue => exact h
      case isFalse h2 =>
        split
        case isTrue h3 =>
          rw [List.length_append, List.length_take]
          omega
        case isFalse h3 =>
          rw [List.length_append]
          rcases Nat.lt_or_ge 1 key.length with hk | hk
          · have hfit : key.length ≤ maxInputLen - text.length := by
              by_contra hcon
              exact h3 ⟨hk, Nat.lt_of_not_le hcon⟩
            omega
          · omega

theorem mentionKeyInput_cap (m : hallModel) (key : GoStr)
    (h : m.input.length ≤ maxInputLen)
    (hsp : key ≠ str " ") (htab : key ≠ str "tab") (hent : key ≠ str "enter") :
    ((mentionKeyInput m key).1).input.length ≤ maxInputLen := by
  unfold mentionKeyInput
  rw [if_neg htab]
  split_ifs
  all_goals
    first
    | exact h
    | exact absurd (by assumption) hent
    | exact absurd (by assumption) hsp
    | exact editRune_length_le m.input (str "backspace") h
    | exact Nat.le_trans (trimSuffixG_length_le _ _) h
    | (simp only [closeMention, closeProject, List.length_append]
       have hk : key.length = 1 := utf8Len_one (by assumption)
       omega)

theorem projectKeyInput_cap (m : hallModel) (key : GoStr)
    (h : m.input.length ≤ maxInputLen)
    (hsp : key ≠ str " ") (htab : key ≠ str "tab") (hent : key ≠ str "enter") :
    ((projectKeyInput m key).1).input.length ≤ maxInputLen := by
  unfold projectKeyInput
  rw [if_neg (fun hke => Or.elim hke htab hent)]
  split_ifs
  all_goals
    first
    | exact h
    | exact absurd (by assumption) hsp
    | exact editRune_length_le m.input (str "backspace") h
    | exact Nat.le_trans (trimSuffixG_length_le _ _) h
    | (simp only [closeMention, closeProject, List.length_append]
       have hk : key.length = 1 := utf8Len_one (by assumption)
       omega)

theorem normalKeyInput_cap (m : hallModel) (key : GoStr)
    (h : m.input.length ≤ maxInputLen) :
    ((normalKeyInput m key).1).input.length ≤ maxInputLen := by
  unfold normalKeyInput
  split_ifs
  all_goals
    first
    | exact h
    | exact Nat.zero_le _
    | exact editRune_length_le m.input key h
    | (simp only [List.length_append]
       have hnl : (str "\n").length = 1 := rfl
       have hat : (str "@").length = 1 := rfl
       have hhash : (str "#").length = 1 := rfl
       omega)

/-- C4 (counterexample): in the mention sub-mode with the buffer exactly
at the 2000-rune cap, the space keystroke (which cancels the sub-mode)
appends a space with no cap check, pushing the buffer to 2001 runes. -/
theorem input_cap_space_counterexample :
    mAtCap.mentionActive = true ∧
    mAtCap.input.length = maxInputLen ∧
    maxInputLen < ((updateInput mAtCap (str " ")).1).input.length := by
  have h1 : mAtCap.input.length = 2000 := by
    show (List.replicate 2000 'a').length = 2000
    rw [List.length_replicate]
  have hstep : ((updateInput mAtCap (str " ")).1).input =
      List.replicate 2000 'a' ++ str " " := rfl
  refine ⟨rfl, h1, ?_⟩
  rw [hstep, List.length_append, List.length_replicate]
  have hsp : (str " ").length = 1 := rfl
  rw [hsp]
  decide

/-- C4 (amended): the rune length of the buffer never exceeds 2000 under
the Text Editor Core (single rune at the cap is a no-op, an overflowing
paste is truncated to exactly fill the remaining capacity, a paste at the
cap is dropped) and under every key handled while composing, except that
inside an autocomplete sub-mode the space cancel key and the tab/enter
accept keys append without a cap check and can push the buffer past
2000. -/
theorem input_cap_amended :
    (∀ text key : GoStr, text.length ≤ maxInputLen →
      (editRune text key).length ≤ maxInputLen) ∧
    (∀ text key : GoStr, key ≠ str "backspace" → text.length = maxInputLen →
      editRune text key = text) ∧
    (∀ text key : GoStr, key ≠ str "backspace" → isNamedKey key = false →
      1 < key.length → text.length < maxInputLen →
      maxInputLen < text.length + key.length →
      editRune text key = text ++ key.take (maxInputLen - text.length) ∧
      (editRune text key).length = maxInputLen) ∧
    (∀ (m : hallModel) (key : GoStr), m.input.length ≤ maxInputLen →
      ¬ ((m.mentionActive = true ∨ m.projectActive = true) ∧
         (key = str " " ∨ key = str "tab" ∨ key = str "enter")) →
      ((updateInput m key).1).input.length ≤ maxInputLen) := by
  refine ⟨editRune_length_le, ?_, ?_, ?_⟩
  · intro text key hkey hlen
    simp only [editRune, if_neg hkey]
    split
    case isTrue => rfl
    case isFalse => rw [if_pos (by omega)]
  · intro text key hkey hnamed hklen hcap hover
    have hcl : ¬ (key.length < 1 ∨ isNamedKey key = true) := by
      rw [hnamed]
      simp only [Bool.false_eq_true, or_false]
      omega
    have hc2 : ¬ maxInputLen ≤ text.length := by omega
    have hc3 : 1 < key.length ∧ maxInputLen - text.length < key.length := ⟨hklen, by omega⟩
    constructor
    · simp only [editRune, if_neg hkey, if_neg hcl, if_neg hc2, if_pos hc3]
    · simp only [editRune, if_neg hkey, if_neg hcl, if_neg hc2, if_pos hc3]
      rw [List.length_append, List.length_take]
      rw [min_eq_left (by omega : maxInputLen - text.length ≤ key.length)]
      omega
  · intro m key h hexc
    rw [updateInput]
    split
    case isTrue hma =>
      have hsp : key ≠ str " " := fun he => hexc ⟨Or.inl hma, Or.inl he⟩
      have htab : key ≠ str "tab" := fun he => hexc ⟨Or.inl hma, Or.inr (Or.inl he)⟩
      have hent : key ≠ str "enter" := fun he => hexc ⟨Or.inl hma, Or.inr (Or.inr he)⟩
      exact mentionKeyInput_cap m key h hsp htab hent
    case isFalse hma =>
      rw [postMention]
      split
      case isTrue hpa =>
        have hsp : key ≠ str " " := fun he => hexc ⟨Or.inr hpa, Or.inl he⟩
        have htab : key ≠ str "tab" := fun he => hexc ⟨Or.inr hpa, Or.inr (Or.inl he)⟩
        have hent : key ≠ str "enter" := fun he => hexc ⟨Or.inr hpa, Or.inr (Or.inr he)⟩
        exact projectKeyInput_cap m key h hsp htab hent
      case isFalse hpa => exact normalKeyInput_cap m key h

/-- C4 (witness): the cap facts at concrete inputs: a single rune appended
below the cap, a no-op at the cap, an overflowing three-rune paste
truncated to exactly fill a buffer two short of the cap, and a normal-mode
keystroke at the cap. -/
theorem input_cap_amended_witness :
    (editRune (List.replicate 2000 'a') (str "b")).length ≤ maxInputLen ∧
    editRune (List.replicate 2000 'a') (str "b") = List.replicate 2000 'a' ∧
    (editRune (List.replicate 1998 'a') (str "xyz") =
        List.replicate 1998 'a' ++ (str "xyz").take 2 ∧
      (editRune (List.replicate 1998 'a') (str "xyz")).length = maxInputLen) ∧
    ((updateInput { newHallModel false with input := List.replicate 2000 'a' }
        (str "q")).1).input.length ≤ maxInputLen := by
  have h2000 : (List.replicate 2000 'a' : GoStr).length = 2000 :=
    List.length_replicate 2000 'a'
  have h1998 : (List.replicate 1998 'a' : GoStr).length = 1998 :=
    List.length_replicate 1998 'a'
  refine ⟨input_cap_amended.1 _ _ (by rw [h2000]; exact Nat.le_refl 2000),
          input_cap_amended.2.1 _ _ (by decide) (by rw [h2000]; rfl),
          ?_,
          input_cap_amended.2.2.2 _ _ (by rw [h2000]; exact Nat.le_refl 2000) (by decide)⟩
  have hres := input_cap_amended.2.2.1 (List.replicate 1998 'a') (str "xyz")
    (by decide) (by decide) (by decide)
    (by rw [h1998]; decide) (by rw [h1998]; decide)
  rw [h1998] at hres
  exact hres

/- ===== autocomplete state lemmas (C6) ===== -/

theorem sigil_inactive {m : hallModel} (h1 : m.mentionActive = false)
    (h2 : m.projectActive = false) : sigilInvariant m := by
  refine ⟨?_, ?_, ?_⟩
  · rintro ⟨hm', _⟩
    rw [h1] at hm'
    exact Bool.false_ne_true hm'
  · intro hm'
    rw [h1] at hm'
    exact absurd hm' Bool.false_ne_true
  · intro hp'
    rw [h2] at hp'
    exact absurd hp' Bool.false_ne_true

theorem editRune_backspace (text : GoStr) :
    editRune text (str "backspace") = text.dropLast := by
  rw [editRune, if_pos rfl]
  split
  case isTrue => rfl
  case isFalse h =>
    have h0 : text = [] := List.length_eq_zero.mp (by omega)
    rw [h0]
    rfl

theorem dropLast_sigil (t q : GoStr) (c : Char) (hq : q ≠ []) :
    (t ++ (c :: q)).dropLast = t ++ (c :: q.dropLast) := by
  rw [List.dropLast_append_cons]
  cases q with
  | nil => exact absurd rfl hq
  | cons x xs => rfl

theorem normalKeyInput_sigil (m : hallModel) (key : GoStr)
    (hma : m.mentionActive = false) (hpa : m.projectActive = false) :
    sigilInvariant ((normalKeyInput m key).1) := by
  unfold normalKeyInput
  split_ifs
  all_goals
    first
    | exact sigil_inactive hma hpa
    | (refine ⟨?_, fun _ => ⟨m.input, ?_⟩, ?_⟩
       · rintro ⟨_, hp⟩
         have hp' : m.projectActive = true := hp
         rw [hpa] at hp'
         exact Bool.false_ne_true hp'
       · show m.input ++ str "@" = m.input ++ (str "@" ++ [])
         rw [List.append_nil]
       · intro hp
         have hp' : m.projectActive = true := hp
         rw [hpa] at hp'
         exact absurd hp' Bool.false_ne_true)
    | (refine ⟨?_, ?_, fun _ => ⟨m.input, ?_⟩⟩
       · rintro ⟨hm', _⟩
         have hm2 : m.mentionActive = true := hm'
         rw [hma] at hm2
         exact Bool.false_ne_true hm2
       · intro hm'
         have hm2 : m.mentionActive = true := hm'
         rw [hma] at hm2
         exact absurd hm2 Bool.false_ne_true
       · show m.input ++ str "#" = m.input ++ (str "#" ++ [])
         rw [List.append_nil])

theorem projectKeyInput_sigil (m : hallModel) (key : GoStr)
    (hma : m.mentionActive = false) (hpa : m.projectActive = true)
    (hinv : sigilInvariant m) :
    sigilInvariant ((projectKeyInput m key).1) := by
  unfold projectKeyInput
  split_ifs
  all_goals
    first
    | exact ⟨hinv.1, hinv.2.1, hinv.2.2⟩
    | exact sigil_inactive hma rfl
    | (obtain ⟨t, ht⟩ := hinv.2.2 hpa
       refine ⟨?_, ?_, fun _ => ⟨t, ?_⟩⟩
       · rintro ⟨hm', _⟩
         have hm2 : m.mentionActive = true := hm'
         rw [hma] at hm2
         exact Bool.false_ne_true hm2
       · intro hm'
         have hm2 : m.mentionActive = true := hm'
         rw [hma] at hm2
         exact absurd hm2 Bool.false_ne_true
       · first
         | (show editRune m.input (str "backspace") =
               t ++ (str "#" ++ editRune m.projectQuery (str "backspace"))
            rw [editRune_backspace, editRune_backspace]
            have ht' : m.input = t ++ ('#' :: m.projectQuery) := ht
            rw [ht', dropLast_sigil t m.projectQuery '#' (by assumption)]
            rfl)
         | (show m.input ++ key = t ++ (str "#" ++ (m.projectQuery ++ key))
            have ht' : m.input = t ++ ('#' :: m.projectQuery) := ht
            rw [ht', List.append_assoc]
            rfl))

theorem postMention_sigil (m : hallModel) (key : GoStr)
    (hma : m.mentionActive = false) (hinv : sigilInvariant m) :
    sigilInvariant ((postMention m key).1) := by
  rw [postMention]
  split
  case isTrue hpa => exact projectKeyInput_sigil m key hma hpa hinv
  case isFalse hpa =>
    have hpa' : m.projectActive = false := by
      revert hpa
      cases m.projectActive <;> simp
    exact normalKeyInput_sigil m key hma hpa'

theorem mentionKeyInput_sigil (m : hallModel) (key : GoStr)
    (hma : m.mentionActive = true) (hinv : sigilInvariant m) :
    sigilInvariant ((mentionKeyInput m key).1) := by
  have hpa : m.projectActive = false := by
    cases hpa : m.projectActive
    · rfl
    · exact absurd ⟨hma, hpa⟩ hinv.1
  unfold mentionKeyInput
  split_ifs
  all_goals
    first
    | exact ⟨hinv.1, hinv.2.1, hinv.2.2⟩
    | exact sigil_inactive rfl hpa
    | exact postMention_sigil { m with mentionActive := false } key rfl
        (sigil_inactive rfl hpa)
    | (obtain ⟨t, ht⟩ := hinv.2.1 hma
       refine ⟨?_, fun _ => ⟨t, ?_⟩, ?_⟩
       · rintro ⟨_, hp⟩
         have hp' : m.projectActive = true := hp
         rw [hpa] at hp'
         exact Bool.false_ne_true hp'
       · first
         | (show editRune m.input (str "backspace") =
               t ++ (str "@" ++ editRune m.mentionQuery (str "backspace"))
            rw [editRune_backspace, editRune_backspace]
            have ht' : m.input = t ++ ('@' :: m.mentionQuery) := ht
            rw [ht', dropLast_sigil t m.mentionQuery '@' (by assumption)]
            rfl)
         | (show m.input ++ key = t ++ (str "@" ++ (m.mentionQuery ++ key))
            have ht' : m.input = t ++ ('@' :: m.mentionQuery) := ht
            rw [ht', List.append_assoc]
            rfl)
       · intro hp
         have hp' : m.projectActive = true := hp
         rw [hpa] at hp'
         exact absurd hp' Bool.false_ne_true)

/-- C6 (counterexample): in the mention sub-mode with query "ze" (stored
matches non-empty, buffer ending in the sigil and query), Backspace
re-filters against a candidate pool that no longer matches and leaves the
machine in the sub-mode with zero candidates: mention-mode Backspace has
no zero-candidate fallback to Normal. -/
theorem mention_backspace_counterexample :
    mStale.mentionActive = true ∧ mStale.mentionMatches ≠ [] ∧
    mStale.input = str "@" ++ mStale.mentionQuery ∧
    mStale.mentionQuery ≠ [] ∧
    ((updateInput mStale (str "backspace")).1).mentionActive = true ∧
    ((updateInput mStale (str "backspace")).1).mentionMatches = [] := by
  refine ⟨rfl, by decide, by decide, by decide, by decide, by decide⟩

/-- C6 (amended): the sub-modes are mutually exclusive and, while one is
active, the buffer always still ends with the triggering sigil followed by
the current query (preserved by every keystroke); typing a printable
character in either sub-mode whose re-filter yields zero candidates
returns the machine to Normal with the typed text kept, and Backspace in
the project sub-mode on a non-empty query does the same; mention-mode
Backspace, however, re-filters without the zero-candidate fallback (the
counterexample), so only the next typed character collapses that mode. -/
theorem autocomplete_collapse_amended :
    (∀ (m : hallModel) (key : GoStr), sigilInvariant m →
      sigilInvariant ((updateInput m key).1)) ∧
    (∀ (m : hallModel) (key : GoStr), m.mentionActive = true →
      utf8Len key = 1 → key ≠ str " " → m.input.length < maxInputLen →
      (filterLogins m (m.mentionQuery ++ key)).length = 0 →
      ((updateInput m key).1).mentionActive = false ∧
      ((updateInput m key).1).input = m.input ++ key) ∧
    (∀ (m : hallModel) (key : GoStr), m.mentionActive = false →
      m.projectActive = true →
      utf8Len key = 1 → key ≠ str " " → m.input.length < maxInputLen →
      (filterProjects m (m.projectQuery ++ key)).length = 0 →
      ((updateInput m key).1).projectActive = false ∧
      ((updateInput m key).1).input = m.input ++ key) ∧
    (∀ m : hallModel, m.mentionActive = false → m.projectActive = true →
      m.projectQuery ≠ [] →
      (filterProjects m (editRune m.projectQuery (str "backspace"))).length = 0 →
      ((updateInput m (str "backspace")).1).projectActive = false) := by
  refine ⟨?_, ?_, ?_, ?_⟩
  · intro m key hinv
    rw [updateInput]
    split
    case isTrue hma => exact mentionKeyInput_sigil m key hma hinv
    case isFalse hma =>
      have hma' : m.mentionActive = false := by
        revert hma
        cases m.mentionActive <;> simp
      exact postMention_sigil m key hma' hinv
  · intro m key hma hk1 hsp hcap hempty
    have htab : key ≠ str "tab" := by
      intro he; rw [he] at hk1; exact absurd hk1 (by decide)
    have hup : key ≠ str "up" := by
      intro he; rw [he] at hk1; exact absurd hk1 (by decide)
    have hdown : key ≠ str "down" := by
      intro he; rw [he] at hk1; exact absurd hk1 (by decide)
    have hesc : key ≠ str "esc" := by
      intro he; rw [he] at hk1; exact absurd hk1 (by decide)
    have hbs : key ≠ str "backspace" := by
      intro he; rw [he] at hk1; exact absurd hk1 (by decide)
    have hent : key ≠ str "enter" := by
      intro he; rw [he] at hk1; exact absurd hk1 (by decide)
    rw [updateInput, if_pos hma]
    unfold mentionKeyInput
    rw [if_neg htab, if_neg hup, if_neg hdown,
      if_neg (fun h => Or.elim h hesc hsp), if_neg hbs, if_neg hent,
      if_pos hk1, if_neg (by omega : ¬ maxInputLen ≤ m.input.length),
      if_pos hempty]
    exact ⟨rfl, rfl⟩
  · intro m key hma hpa hk1 hsp hcap hempty
    have htab : key ≠ str "tab" := by
      intro he; rw [he] at hk1; exact absurd hk1 (by decide)
    have hup : key ≠ str "up" := by
      intro he; rw [he] at hk1; exact absurd hk1 (by decide)
    have hdown : key ≠ str "down" := by
      intro he; rw [he] at hk1; exact absurd hk1 (by decide)
    have hesc : key ≠ str "esc" := by
      intro he; rw [he] at hk1; exact absurd hk1 (by decide)
    have hbs : key ≠ str "backspace" := by
      intro he; rw [he] at hk1; exact absurd hk1 (by decide)
    have hent : key ≠ str "enter" := by
      intro he; rw [he] at hk1; exact absurd hk1 (by decide)
    rw [updateInput, if_neg (by rw [hma]; exact Bool.false_ne_true),
      postMention, if_pos hpa]
    unfold projectKeyInput
    rw [if_neg (fun h => Or.elim h htab hent), if_neg hup, if_neg hdown,
      if_neg (fun h => Or.elim h hesc hsp), if_neg hbs,
      if_pos hk1, if_neg (by omega : ¬ maxInputLen ≤ m.input.length),
      if_pos hempty]
    exact ⟨rfl, rfl⟩
  · intro m hma hpa hq hempty
    rw [updateInput, if_neg (by rw [hma]; exact Bool.false_ne_true),
      postMention, if_pos hpa]
    unfold projectKeyInput
    rw [if_neg (fun h => Or.elim h (by decide) (by decide)),
      if_neg (by decide), if_neg (by decide),
      if_neg (fun h => Or.elim h (by decide) (by decide)),
      if_pos rfl, if_neg hq, if_pos hempty]
    rfl

/-- C6 (witness): the invariant preserved across a keystroke from a
concrete sub-mode state, and the typing collapse at a state whose
re-filter comes up empty. -/
theorem autocomplete_collapse_amended_witness :
    sigilInvariant ((updateInput mTypeOut (str "q")).1) ∧
    ((updateInput mTypeOut (str "q")).1).mentionActive = false ∧
    ((updateInput mTypeOut (str "q")).1).input = mTypeOut.input ++ str "q" := by
  have hinv : sigilInvariant mTypeOut :=
    ⟨fun hc => absurd hc.2 (by decide), fun _ => ⟨[], by decide⟩,
     fun hp => absurd hp (by decide)⟩
  have hcoll := autocomplete_collapse_amended.2.1 mTypeOut (str "q") rfl
    (by decide) (by decide) (by decide) (by decide)
  exact ⟨autocomplete_collapse_amended.1 mTypeOut (str "q") hinv, hcoll.1, hcoll.2⟩

/- ===== synthetic-entry lemmas (C10) ===== -/

theorem insertBatch_mem (myLogin : GoStr) :
    ∀ (batch : List RoomMessage) (msgs : List chatMessage) (seen : Finset GoStr),
      ∀ x ∈ (insertBatch myLogin (msgs, seen) batch).1,
        x ∈ msgs ∨ ∃ r ∈ batch, x = convertMsg myLogin r := by
  intro batch
  induction batch with
  | nil =>
    intro msgs seen x hx
    exact Or.inl hx
  | cons r rest ih =>
    intro msgs seen x hx
    rw [insertBatch_cons] at hx
    by_cases hmem : r.id ∈ seen
    · rw [insertOne, if_pos hmem] at hx
      rcases ih msgs seen x hx with h | ⟨r', hr', he⟩
      · exact Or.inl h
      · exact Or.inr ⟨r', List.mem_cons_of_mem r hr', he⟩
    · rw [insertOne, if_neg hmem] at hx
      rcases ih (msgs ++ [convertMsg myLogin r]) (insert r.id seen) x hx with h | ⟨r', hr', he⟩
      · rcases List.mem_append.mp h with h' | h'
        · exact Or.inl h'
        · exact Or.inr ⟨r, List.mem_cons_self r rest, List.mem_singleton.mp h'⟩
      · exact Or.inr ⟨r', List.mem_cons_of_mem r hr', he⟩

theorem mergeTick_mem_sub (m : hallModel) (batch : List RoomMessage) :
    ∀ x ∈ (mergeTick m batch).messages, x ∈ (mergeResult m batch).1 := by
  intro x hx
  rw [mergeTick_messages, trimWindow_fst_eq] at hx
  have hx' : x ∈ sortByTime (mergeResult m batch).1 := by
    revert hx
    split
    · exact fun hx => List.mem_of_mem_drop hx
    · exact id
  exact (sortByTime_perm _).mem_iff.mp hx'

/-- C10: synthetic join/leave entries are created with the Go zero values
(empty ID, zero CreatedAt) — every entry the presence handler adds has
them; on the next successful merge the chronological re-sort places all
synthetic entries before every real (positively-timestamped) message; and
when the retention trim fires while a synthetic entry survives, the empty
string enters the rebuilt seen-ID set. -/
theorem synthetic_entries_spec :
    (∀ body : GoStr, (mkPresenceSystemMsg body).ID = [] ∧
      (mkPresenceSystemMsg body).CreatedAt = 0 ∧
      (mkPresenceSystemMsg body).IsSystem = true) ∧
    (∀ (m : hallModel) (msg : HallPresenceMsg),
      ∀ e ∈ (handleHallPresence m msg).messages,
        e ∈ m.messages ∨ (e.ID = [] ∧ e.CreatedAt = 0 ∧ e.IsSystem = true)) ∧
    (∀ (m : hallModel) (batch : List RoomMessage),
      (∀ e ∈ m.messages, e.IsSystem = true → e.CreatedAt = 0) →
      (∀ e ∈ m.messages, e.IsSystem = false → 0 < e.CreatedAt) →
      (∀ r ∈ batch, 0 < r.createdAt) →
      List.Pairwise (fun a b => b.IsSystem = true → a.IsSystem = true)
        ((mergeTick m batch).messages)) ∧
    (∀ (m : hallModel) (batch : List RoomMessage),
      (∀ e ∈ m.messages, e.IsSystem = true → e.ID = []) →
      200 < (mergeResult m batch).1.length →
      (∃ e ∈ (mergeTick m batch).messages, e.IsSystem = true) →
      ([] : GoStr) ∈ (mergeTick m batch).seenIDs) := by
  refine ⟨fun body => ⟨rfl, rfl, rfl⟩, ?_, ?_, ?_⟩
  · intro m msg e he
    rw [handleHallPresence] at he
    rcases herr : msg.err with _ | err
    · rw [herr] at he
      rcases hprev : m.presenceLogins with _ | prev
      · rw [hprev] at he
        exact Or.inl he
      · rw [hprev] at he
        simp only [List.mem_append, List.mem_map, List.mem_filter] at he
        rcases he with (he | ⟨l, _, hl⟩) | ⟨l, _, hl⟩
        · exact Or.inl he
        · exact Or.inr (by rw [← hl]; exact ⟨rfl, rfl, rfl⟩)
        · exact Or.inr (by rw [← hl]; exact ⟨rfl, rfl, rfl⟩)
    · rw [herr] at he
      exact Or.inl he
  · intro m batch hsys hreal hbatch
    have hclass : ∀ x ∈ (mergeTick m batch).messages,
        (x.IsSystem = true → x.CreatedAt = 0) ∧
        (x.IsSystem = false → 0 < x.CreatedAt) := by
      intro x hx
      have hx' := mergeTick_mem_sub m batch x hx
      rw [mergeResult_eq] at hx'
      rcases insertBatch_mem m.myLogin batch m.messages m.seenIDs x hx' with h | ⟨r, hr, he⟩
      · exact ⟨hsys x h, hreal x h⟩
      · constructor
        · intro hxs
          rw [he] at hxs
          exact absurd hxs (by simp [convertMsg])
        · intro _
          rw [he]
          exact hbatch r hr
    have hpair : List.Pairwise timeLe ((mergeTick m batch).messages) := by
      rw [mergeTick_messages]
      exact trimWindow_fst_sorted _ _ (sortByTime_sorted _)
    refine hpair.imp_of_mem ?_
    intro a b ha hb hle hbs
    have hb0 : b.CreatedAt = 0 := (hclass b hb).1 hbs
    rw [timeLe, hb0, Nat.le_zero] at hle
    cases has : a.IsSystem
    · exact absurd ((hclass a ha).2 has) (by rw [hle]; exact Nat.lt_irrefl 0)
    · rfl
  · intro m batch hsysid h200 ⟨e, he, hesys⟩
    have hid : e.ID = [] := by
      have hx' := mergeTick_mem_sub m batch e he
      rw [mergeResult_eq] at hx'
      rcases insertBatch_mem m.myLogin batch m.messages m.seenIDs e hx' with h | ⟨r, _, heq⟩
      · exact hsysid e h hesys
      · rw [heq] at hesys
        exact absurd hesys (by simp [convertMsg])
    have hc : 200 < (sortByTime (mergeResult m batch).1).length := by
      rw [sortByTime_length]
      exact h200
    have hseen : (mergeTick m batch).seenIDs =
        ((mergeTick m batch).messages.map (fun c => c.ID)).toFinset := by
      rw [mergeTick_seenIDs, mergeTick_messages, trimWindow_snd_eq,
        trimWindow_fst_eq, if_pos hc, if_pos hc]
    rw [hseen, List.mem_toFinset, ← hid]
    exact List.mem_map_of_mem (fun c => c.ID) he

/-- C10 (witness): the synthetic-entry facts at the 201-entry window of
synthetic entries merged with an empty batch (the trim fires and a
synthetic entry survives). -/
theorem synthetic_entries_spec_witness :
    (mkPresenceSystemMsg (str "x joined")).ID = [] ∧
    List.Pairwise (fun a b => b.IsSystem = true → a.IsSystem = true)
      ((mergeTick mBig []).messages) ∧
    ([] : GoStr) ∈ (mergeTick mBig []).seenIDs := by
  have hbig : ∀ e ∈ mBig.messages, e = mkPresenceSystemMsg (str "x joined") := by
    intro e he
    exact List.eq_of_mem_replicate he
  have h201 : (mergeResult mBig []).1.length = 201 := by
    show bigWindow.length = 201
    rw [bigWindow, List.length_replicate]
  have hpair := synthetic_entries_spec.2.2.1 mBig []
    (fun e he _ => by rw [hbig e he]; rfl)
    (fun e he hf => by rw [hbig e he] at hf; exact absurd hf (by decide))
    (fun r hr => absurd hr (List.not_mem_nil r))
  have hex : ∃ e ∈ (mergeTick mBig []).messages, e.IsSystem = true := by
    have hlen : (mergeTick mBig []).messages.length = 200 := by
      rw [mergeTick_messages, trimWindow_fst_eq,
        if_pos (by rw [sortByTime_length, h201]; omega), List.length_drop,
        sortByTime_length, h201]
    have hne : (mergeTick mBig []).messages ≠ [] := by
      intro h
      rw [h] at hlen
      exact absurd hlen (by decide)
    obtain ⟨e, he⟩ := List.exists_mem_of_ne_nil _ hne
    refine ⟨e, he, ?_⟩
    have hmem := mergeTick_mem_sub mBig [] e he
    rw [hbig e hmem]
    rfl
  exact ⟨synthetic_entries_spec.1 (str "x joined") |>.1, hpair,
    synthetic_entries_spec.2.2.2 mBig []
      (fun e he _ => by rw [hbig e he]; rfl)
      (by rw [h201]; omega) hex⟩

end Grimora
